import Mathlib

set_option maxHeartbeats 1000000

/-!
Verification of the native-messaging framing module
(`src/native/src/native_messaging.rs`).

The module reads one length-prefixed JSON request from standard input and
writes a length-prefixed JSON reply or error to standard output.  We embed
it shallowly:

* JSON values (`Value`) model `serde_json::Value`; numbers are modelled as
  integers (the module never constructs floating-point numbers itself).
* `renderValue` models `serde_json::to_string` (compact rendering, serde's
  escaping rules); `parseValue`/`fromSlice` model `serde_json::from_slice`
  restricted to the compact grammar produced by the writer (no interstitial
  whitespace, integer numbers, no surrogate-pair escapes) together with
  strict UTF-8 validation.
* Host-native byte order is modelled as little-endian (the byte order of the
  x86-64 / aarch64 hosts this native companion runs on).
* Byte streams are `List Nat` with every element a byte value; standard
  input is the finite list of bytes the stream yields before closing.
* The source's `.unwrap()` calls on `read_exact` and `from_slice` abort the
  process on failure; that outcome is modelled by the `ReadResult.crash`
  constructor, distinct from returning an error value.
-/

namespace NativeMessaging

/-- JSON values, modelling `serde_json::Value`.  Objects are association
lists; the `json!` constructions in the source use serde's default
`BTreeMap`, so the writer builds its two-field objects in sorted key
order. Numbers are modelled as integers. -/
inductive Value where
  | null : Value
  | bool : Bool → Value
  | num : Int → Value
  | str : List Char → Value
  | arr : List Value → Value
  | obj : List (List Char × Value) → Value

-- Structural size of a JSON value, used only to budget parser fuel.
mutual

def sizeV : Value → Nat
  | .null => 1
  | .bool _ => 1
  | .num _ => 1
  | .str _ => 1
  | .arr l => 1 + sizeL l
  | .obj m => 1 + sizeM m

def sizeL : List Value → Nat
  | [] => 1
  | v :: l => 1 + sizeV v + sizeL l

def sizeM : List (List Char × Value) → Nat
  | [] => 1
  | (_, v) :: m => 1 + sizeV v + sizeM m

end

/-- Decimal digit character for a digit value below ten. -/
def digitChar : Nat → Char
  | 0 => '0'
  | 1 => '1'
  | 2 => '2'
  | 3 => '3'
  | 4 => '4'
  | 5 => '5'
  | 6 => '6'
  | 7 => '7'
  | 8 => '8'
  | 9 => '9'
  | _ => '0'

/-- Lowercase hexadecimal digit character for a value below sixteen. -/
def hexDig : Nat → Char
  | 0 => '0'
  | 1 => '1'
  | 2 => '2'
  | 3 => '3'
  | 4 => '4'
  | 5 => '5'
  | 6 => '6'
  | 7 => '7'
  | 8 => '8'
  | 9 => '9'
  | 10 => 'a'
  | 11 => 'b'
  | 12 => 'c'
  | 13 => 'd'
  | 14 => 'e'
  | 15 => 'f'
  | _ => '0'

def isDigit (c : Char) : Bool :=
  decide (48 ≤ c.toNat) && decide (c.toNat ≤ 57)

def digitVal (c : Char) : Nat := c.toNat - 48

def hexVal (c : Char) : Option Nat :=
  if 48 ≤ c.toNat ∧ c.toNat ≤ 57 then some (c.toNat - 48)
  else if 97 ≤ c.toNat ∧ c.toNat ≤ 102 then some (c.toNat - 87)
  else if 65 ≤ c.toNat ∧ c.toNat ≤ 70 then some (c.toNat - 55)
  else none

/-- Fuel-driven decimal rendering of a natural number (most significant
digit first); the fuel argument only makes the recursion structural. -/
def natDigitsAux : Nat → Nat → List Char
  | 0, _ => []
  | f + 1, n =>
    if n < 10 then [digitChar n]
    else natDigitsAux f (n / 10) ++ [digitChar (n % 10)]

/-- Decimal rendering of a natural number. -/
def natDigits (n : Nat) : List Char := natDigitsAux (n + 1) n

/-- Rendering of an integer, modelling serde's `i64` display. -/
def renderInt (i : Int) : List Char :=
  if i < 0 then '-' :: natDigits i.natAbs else natDigits i.toNat

/-- JSON string escaping of one character, following serde_json's writer:
quote and backslash get two-character escapes, the five named control
characters get their short escapes, all other control characters below 0x20
become `\u00xx`, and everything else is emitted verbatim. -/
def escapeChar (c : Char) : List Char :=
  if c = '"' then ['\\', '"']
  else if c = '\\' then ['\\', '\\']
  else if c = '\x08' then ['\\', 'b']
  else if c = '\x09' then ['\\', 't']
  else if c = '\x0a' then ['\\', 'n']
  else if c = '\x0c' then ['\\', 'f']
  else if c = '\x0d' then ['\\', 'r']
  else if c.toNat < 32 then
    ['\\', 'u', '0', '0', hexDig (c.toNat / 16), hexDig (c.toNat % 16)]
  else [c]

def escapeStr : List Char → List Char
  | [] => []
  | c :: s => escapeChar c ++ escapeStr s

/-- Characters of the JSON keyword `null`. -/
def nullChars : List Char := ['n', 'u', 'l', 'l']

/-- Characters of the JSON keyword `true`. -/
def trueChars : List Char := ['t', 'r', 'u', 'e']

/-- Characters of the JSON keyword `false`. -/
def falseChars : List Char := ['f', 'a', 'l', 's', 'e']

-- Compact JSON rendering, modelling `serde_json::to_string`.
mutual

def renderValue : Value → List Char
  | .null => nullChars
  | .bool true => trueChars
  | .bool false => falseChars
  | .num i => renderInt i
  | .str s => '"' :: (escapeStr s ++ ['"'])
  | .arr l => '[' :: (renderElems l ++ [']'])
  | .obj m => '\x7b' :: (renderMembers m ++ ['\x7d'])

def renderElems : List Value → List Char
  | [] => []
  | [v] => renderValue v
  | v :: v' :: vs => renderValue v ++ ',' :: renderElems (v' :: vs)

def renderMembers : List (List Char × Value) → List Char
  | [] => []
  | [(k, v)] => '"' :: (escapeStr k ++ '"' :: ':' :: renderValue v)
  | (k, v) :: p :: ms =>
    ('"' :: (escapeStr k ++ '"' :: ':' :: renderValue v)) ++ ',' :: renderMembers (p :: ms)

end

/-- UTF-8 encoding of one character (1 to 4 bytes). -/
def utf8Char (c : Char) : List Nat :=
  let n := c.toNat
  if n < 128 then [n]
  else if n < 2048 then [192 + n / 64, 128 + n % 64]
  else if n < 65536 then [224 + n / 4096, 128 + n / 64 % 64, 128 + n % 64]
  else [240 + n / 262144, 128 + n / 4096 % 64, 128 + n / 64 % 64, 128 + n % 64]

def utf8Encode : List Char → List Nat
  | [] => []
  | c :: s => utf8Char c ++ utf8Encode s

-- Strict UTF-8 decoding, modelling the validation `serde_json::from_slice`
-- performs on its input: continuation bytes are range-checked, overlong
-- encodings, surrogate code points and values above 0x10FFFF are rejected.
-- The decoder is split by sequence length to keep the recursion structural.
mutual

def utf8Decode : List Nat → Option (List Char)
  | [] => some []
  | b :: r =>
    if b < 128 then (utf8Decode r).map (fun s => Char.ofNat b :: s)
    else if b < 194 then none
    else if b < 224 then utf8Dec2 b r
    else if b < 240 then utf8Dec3 b r
    else if b < 245 then utf8Dec4 b r
    else none

def utf8Dec2 (b : Nat) : List Nat → Option (List Char)
  | b1 :: r1 =>
    if 128 ≤ b1 ∧ b1 < 192 then
      (utf8Decode r1).map (fun s => Char.ofNat ((b - 192) * 64 + (b1 - 128)) :: s)
    else none
  | [] => none

def utf8Dec3 (b : Nat) : List Nat → Option (List Char)
  | b1 :: b2 :: r2 =>
    if 128 ≤ b1 ∧ b1 < 192 ∧ 128 ≤ b2 ∧ b2 < 192 then
      let n := (b - 224) * 4096 + (b1 - 128) * 64 + (b2 - 128)
      if 2048 ≤ n ∧ (n < 55296 ∨ 57344 ≤ n) then
        (utf8Decode r2).map (fun s => Char.ofNat n :: s)
      else none
    else none
  | _ => none

def utf8Dec4 (b : Nat) : List Nat → Option (List Char)
  | b1 :: b2 :: b3 :: r3 =>
    if 128 ≤ b1 ∧ b1 < 192 ∧ 128 ≤ b2 ∧ b2 < 192 ∧ 128 ≤ b3 ∧ b3 < 192 then
      let n := (b - 240) * 262144 + (b1 - 128) * 4096 + (b2 - 128) * 64 + (b3 - 128)
      if 65536 ≤ n ∧ n < 1114112 then
        (utf8Decode r3).map (fun s => Char.ofNat n :: s)
      else none
    else none
  | _ => none

end

/-- Parsing of the remainder of a JSON string literal (after the opening
quote), inverting serde's escaping; lone surrogate escapes are rejected. -/
def parseStringRest : List Char → Option (List Char × List Char)
  | [] => none
  | c :: r =>
    if c = '"' then some ([], r)
    else if c = '\\' then
      match r with
      | [] => none
      | e :: r1 =>
        if e = '"' then (parseStringRest r1).map (fun p => ('"' :: p.1, p.2))
        else if e = '\\' then (parseStringRest r1).map (fun p => ('\\' :: p.1, p.2))
        else if e = '/' then (parseStringRest r1).map (fun p => ('/' :: p.1, p.2))
        else if e = 'b' then (parseStringRest r1).map (fun p => ('\x08' :: p.1, p.2))
        else if e = 'f' then (parseStringRest r1).map (fun p => ('\x0c' :: p.1, p.2))
        else if e = 'n' then (parseStringRest r1).map (fun p => ('\x0a' :: p.1, p.2))
        else if e = 'r' then (parseStringRest r1).map (fun p => ('\x0d' :: p.1, p.2))
        else if e = 't' then (parseStringRest r1).map (fun p => ('\x09' :: p.1, p.2))
        else if e = 'u' then
          match r1 with
          | h3 :: h2 :: h1 :: h0 :: r2 =>
            match hexVal h3, hexVal h2, hexVal h1, hexVal h0 with
            | some d3, some d2, some d1, some d0 =>
              let n := d3 * 4096 + d2 * 256 + d1 * 16 + d0
              if n < 55296 then
                (parseStringRest r2).map (fun p => (Char.ofNat n :: p.1, p.2))
              else if 57344 ≤ n then
                (parseStringRest r2).map (fun p => (Char.ofNat n :: p.1, p.2))
              else none
            | _, _, _, _ => none
          | _ => none
        else none
    else (parseStringRest r).map (fun p => (c :: p.1, p.2))

def digitsToNat (ds : List Char) : Nat :=
  ds.foldl (fun a c => a * 10 + digitVal c) 0

/-- Parsing of an unsigned decimal number prefix. -/
def parseNatPart (cs : List Char) : Option (Nat × List Char) :=
  match cs.takeWhile isDigit with
  | [] => none
  | d :: ds => some (digitsToNat (d :: ds), cs.dropWhile isDigit)

/-- Parsing of an (integer) JSON number, modelling the integer case of
serde's number grammar. -/
def parseNumber (cs : List Char) : Option (Int × List Char) :=
  match cs with
  | [] => none
  | c :: r =>
    if c = '-' then (parseNatPart r).map (fun p => (-(p.1 : Int), p.2))
    else (parseNatPart (c :: r)).map (fun p => ((p.1 : Int), p.2))

-- Recursive-descent JSON parser over the compact grammar.  The fuel
-- argument makes the mutual recursion structural; `fromSlice` supplies fuel
-- proportional to the input length, which suffices for every rendered value.
mutual

def parseValue : Nat → List Char → Option (Value × List Char)
  | 0, _ => none
  | _ + 1, [] => none
  | f + 1, c :: r =>
    if c = 'n' then
      match r with
      | c1 :: c2 :: c3 :: r1 =>
        if c1 = 'u' ∧ c2 = 'l' ∧ c3 = 'l' then some (.null, r1) else none
      | _ => none
    else if c = 't' then
      match r with
      | c1 :: c2 :: c3 :: r1 =>
        if c1 = 'r' ∧ c2 = 'u' ∧ c3 = 'e' then some (.bool true, r1) else none
      | _ => none
    else if c = 'f' then
      match r with
      | c1 :: c2 :: c3 :: c4 :: r1 =>
        if c1 = 'a' ∧ c2 = 'l' ∧ c3 = 's' ∧ c4 = 'e' then some (.bool false, r1) else none
      | _ => none
    else if c = '"' then
      (parseStringRest r).map (fun p => (.str p.1, p.2))
    else if c = '[' then
      if r.head? = some ']' then some (.arr [], r.tail)
      else (parseElems f r).map (fun p => (.arr p.1, p.2))
    else if c = '\x7b' then
      if r.head? = some '\x7d' then some (.obj [], r.tail)
      else (parseMembers f r).map (fun p => (.obj p.1, p.2))
    else (parseNumber (c :: r)).map (fun p => (.num p.1, p.2))

def parseElems : Nat → List Char → Option (List Value × List Char)
  | 0, _ => none
  | f + 1, cs =>
    match parseValue f cs with
    | none => none
    | some (v, r) =>
      if r.head? = some ',' then
        match parseElems f r.tail with
        | some (l, r1) => some (v :: l, r1)
        | none => none
      else if r.head? = some ']' then some ([v], r.tail)
      else none

def parseMembers : Nat → List Char → Option (List (List Char × Value) × List Char)
  | 0, _ => none
  | f + 1, cs =>
    match cs with
    | [] => none
    | c :: r =>
      if c = '"' then
        match parseStringRest r with
        | none => none
        | some (k, r1) =>
          if r1.head? = some ':' then
            match parseValue f r1.tail with
            | none => none
            | some (v, r2) =>
              if r2.head? = some ',' then
                match parseMembers f r2.tail with
                | some (m, r3) => some ((k, v) :: m, r3)
                | none => none
              else if r2.head? = some '\x7d' then some ([(k, v)], r2.tail)
              else none
          else none
      else none

end

/-- Model of `serde_json::from_slice`: validate and decode UTF-8, parse one
JSON value, and require the input to be fully consumed. -/
def fromSlice (bs : List Nat) : Option Value :=
  match utf8Decode bs with
  | none => none
  | some cs =>
    match parseValue (2 * cs.length + 2) cs with
    | some (v, []) => some v
    | _ => none

/-- Little-endian byte representation of a 32-bit unsigned integer; this
models `write_u32::<NativeEndian>` on the little-endian host together with
the truncating `as u32` cast applied to the payload length. -/
def u32le (n : Nat) : List Nat :=
  [n % 256, n / 256 % 256, n / 65536 % 256, n / 16777216 % 256]

/-- Little-endian read of a 32-bit unsigned integer from the first four
bytes, modelling `read_u32::<NativeEndian>` on the 4-byte buffer. -/
def u32leDecode : List Nat → Nat
  | b0 :: b1 :: b2 :: b3 :: _ => b0 + 256 * b1 + 65536 * b2 + 16777216 * b3
  | _ => 0

/-- Modelled from the spec: the crate-level `Error` type (defined outside
`src/native/src/native_messaging.rs`) with the four kinds named in the
specification's error-handling design. -/
inductive Error where
  | ioError : Error
  | decodeError : Error
  | protocolError : Error
  | encodeError : Error

/-- Modelled from the spec: the deterministic debug-style rendering
`format!` applies to an `Error` value in `stdout_error`. -/
def errorDebug : Error → List Char
  | .ioError => ['I', 'o', 'E', 'r', 'r', 'o', 'r']
  | .decodeError => ['D', 'e', 'c', 'o', 'd', 'e', 'E', 'r', 'r', 'o', 'r']
  | .protocolError => ['P', 'r', 'o', 't', 'o', 'c', 'o', 'l', 'E', 'r', 'r', 'o', 'r']
  | .encodeError => ['E', 'n', 'c', 'o', 'd', 'e', 'E', 'r', 'r', 'o', 'r']

def rpcKey : List Char := ['r', 'p', 'c', '_', 'i', 'd']

def replyKey : List Char := ['r', 'e', 'p', 'l', 'y']

def errorKey : List Char := ['e', 'r', 'r', 'o', 'r']

def fooKey : List Char := ['f', 'o', 'o']

/-- First binding of a key in a JSON object's member list. -/
def lookupField : List (List Char × Value) → List Char → Option Value
  | [], _ => none
  | (k, v) :: m, key => if k = key then some v else lookupField m key

/-- Modelled from the spec: the `as_i64!` macro (defined outside the module
source), which extracts the named field from the parsed value as a signed
64-bit integer and fails otherwise; per the spec this failure surfaces as a
`ProtocolError`. -/
def asI64 (v : Value) (key : List Char) : Option Int :=
  match v with
  | .obj m =>
    match lookupField m key with
    | some (.num i) => if -(2 ^ 63) ≤ i ∧ i < 2 ^ 63 then some i else none
    | _ => none
  | _ => none

/-- Success-response object built by `stdout_reply`'s `json!` literal; the
default serde map is a `BTreeMap`, so the two keys serialize in sorted
order (`reply` before `rpc_id`). -/
def replyMessage (rpc_id : Int) (reply : Value) : Value :=
  .obj [(replyKey, reply), (rpcKey, .num rpc_id)]

/-- Error-response object built by `stdout_error`'s `json!` literal. -/
def errorMessage (rpc_id : Int) (error : Error) : Value :=
  .obj [(errorKey, .str (errorDebug error)), (rpcKey, .num rpc_id)]

/-- Model of `serde_json::to_string` at the `Result` level; serialization of
the internally constructed values cannot fail. -/
def serialize (message : Value) : Except Error (List Char) :=
  .ok (renderValue message)

/-- UTF-8 bytes of the serialized message (the `message.into_bytes()` of the
source). -/
def msgBytes (message : Value) : List Nat := utf8Encode (renderValue message)

/-- Byte length of the serialized message (`message.len()` in the source). -/
def msgLen (message : Value) : Nat := (msgBytes message).length

/-- Frame the writer puts on standard output: 4-byte native-order length
(truncated by the `as u32` cast) followed by the JSON payload bytes. -/
def frameOf (message : Value) : List Nat :=
  u32le (msgLen message) ++ msgBytes message

/-- Pure model of `stdout`: serialize the message and produce the emitted
frame; the `Except` mirrors the source's `Result<(), Error>`. -/
def stdout (message : Value) : Except Error (List Nat) :=
  match serialize message with
  | .error e => .error e
  | .ok s => .ok (u32le (utf8Encode s).length ++ utf8Encode s)

/-- Model of `stdout_reply`. -/
def stdout_reply (rpc_id : Int) (reply : Value) : Except Error (List Nat) :=
  stdout (replyMessage rpc_id reply)

/-- Model of `stdout_error`. -/
def stdout_error (rpc_id : Int) (error : Error) : Except Error (List Nat) :=
  stdout (errorMessage rpc_id error)

/-- Frame emitted for a reply, as bytes. -/
def replyFrame (rpc_id : Int) (reply : Value) : List Nat :=
  frameOf (replyMessage rpc_id reply)

/-- Frame emitted for an error, as bytes. -/
def errorFrame (rpc_id : Int) (error : Error) : List Nat :=
  frameOf (errorMessage rpc_id error)

/-- Outcome of one `stdin()` call.  `crash` models the process abort caused
by the source's `.unwrap()` calls (lines 9, 14 and 15), as opposed to
returning an error value to the caller. -/
inductive ReadResult where
  | crash : ReadResult
  | fail : Error → ReadResult
  | ok : Int → Value → ReadResult

/-- Model of `stdin()`: the argument is the finite byte stream standard
input yields before closing; the second component of the result is the part
of the stream left unconsumed. -/
def stdin (input : List Nat) : ReadResult × List Nat :=
  if input.length < 4 then (.crash, input)
  else
    let size := u32leDecode (input.take 4)
    let rest := input.drop 4
    if rest.length < size then (.crash, rest)
    else
      let data := rest.take size
      let rest1 := rest.drop size
      match fromSlice data with
      | none => (.crash, rest1)
      | some message =>
        match asI64 message rpcKey with
        | none => (.fail .protocolError, rest1)
        | some rpc_id => (.ok rpc_id message, rest1)

/-- State of the standard-output stream: bytes accepted by `write` but not
yet flushed, and bytes already delivered to the underlying pipe. -/
structure OutState where
  buffered : List Nat
  flushed : List Nat

/-- Outcome of one `Write::write` call: an I/O error, or success accepting
a given number of bytes.  Per Rust's `Write::write` contract the accepted
count may be smaller than the offered buffer (a short write); the source
discards this count. -/
inductive WriteStep where
  | err : WriteStep
  | ok : Nat → WriteStep

/-- Oracle for one `stdout` call: the outcome of each of the two
`Write::write` calls and whether the final `flush` succeeds. -/
structure WriteOracle where
  lenStep : WriteStep
  bodyStep : WriteStep
  flushOk : Bool

/-- Effectful model of `stdout`: each `io::stdout().write` call either
fails (changing nothing) or succeeds with the stream accepting an
oracle-chosen number of the offered bytes — possibly only a prefix, the
short-write case of `Write::write`, whose returned count the source
discards — and `flush` moves the buffer to the pipe.  Errors are surfaced
through the `?` operator exactly where the source surfaces them. -/
def stdoutRun (message : Value) (o : WriteOracle) (st : OutState) :
    Except Error Unit × OutState :=
  match serialize message with
  | .error e => (.error e, st)
  | .ok s =>
    match o.lenStep with
    | .err => (.error .ioError, st)
    | .ok n1 =>
      let st1 : OutState :=
        ⟨st.buffered ++ (u32le (utf8Encode s).length).take n1, st.flushed⟩
      match o.bodyStep with
      | .err => (.error .ioError, st1)
      | .ok n2 =>
        let st2 : OutState := ⟨st1.buffered ++ (utf8Encode s).take n2, st1.flushed⟩
        if o.flushOk then (.ok (), ⟨[], st2.flushed ++ st2.buffered⟩)
        else (.error .ioError, st2)

/-- Oracle of the complete-write executions: both `write` calls accept
their entire buffers and the flush succeeds. -/
def fullWrites (message : Value) : WriteOracle :=
  ⟨.ok 4, .ok (msgLen message), true⟩

/-- Digit-freedom of the head of a character list; the trailing input
behind a rendered value in the round-trip lemmas must not begin with a
digit, since JSON number parsing is maximal-munch. -/
def digitFree (cs : List Char) : Prop :=
  ∀ c, cs.head? = some c → isDigit c = false

/-- Round-trip property of `parseValue` at a given fuel. -/
def ParseVGood (f : Nat) : Prop :=
  ∀ v rest, sizeV v ≤ f → digitFree rest →
    parseValue f (renderValue v ++ rest) = some (v, rest)

/-- Round-trip property of `parseElems` at a given fuel. -/
def ParseLGood (f : Nat) : Prop :=
  ∀ v l rest, sizeL (v :: l) ≤ f →
    parseElems f (renderElems (v :: l) ++ ']' :: rest) = some (v :: l, rest)

/-- Round-trip property of `parseMembers` at a given fuel. -/
def ParseMGood (f : Nat) : Prop :=
  ∀ k v m rest, sizeM ((k, v) :: m) ≤ f →
    parseMembers f (renderMembers ((k, v) :: m) ++ '\x7d' :: rest) =
      some ((k, v) :: m, rest)

/-- Concrete oversized JSON value: a string of 2^32 identical characters,
whose serialized form is longer than 2^32 bytes. -/
def bigStr : List Char := List.replicate 4294967296 'a'

/-- Oversized JSON value used to exhibit the length-field truncation. -/
def bigVal : Value := Value.str bigStr

/-- Leading characters of the serialized oversized reply message. -/
def bigPrefix : List Char :=
  ['\x7b', '"', 'r', 'e', 'p', 'l', 'y', '"', ':', '"']

/-- Trailing characters of the serialized oversized reply message. -/
def bigSuffix : List Char :=
  ['"', ',', '"', 'r', 'p', 'c', '_', 'i', 'd', '"', ':', '0', '\x7d']

section CharFacts

/-- Injectivity of `Char.toNat`. -/
theorem char_toNat_inj {c d : Char} (h : c.toNat = d.toNat) : c = d := by
  have h2 := congrArg Char.ofNat h
  rwa [Char.ofNat_toNat, Char.ofNat_toNat] at h2

/-- Valid scalar-value range of a character's code point. -/
theorem char_toNat_valid (c : Char) :
    c.toNat < 55296 ∨ (57343 < c.toNat ∧ c.toNat < 1114112) := c.valid

theorem char_ne_of_toNat_ne {c d : Char} (h : c.toNat ≠ d.toNat) : c ≠ d :=
  fun he => h (congrArg Char.toNat he)

theorem isDigit_toNat {c : Char} (h : isDigit c = true) :
    48 ≤ c.toNat ∧ c.toNat ≤ 57 := by
  simp only [isDigit, Bool.and_eq_true, decide_eq_true_eq] at h
  exact h

end CharFacts

section U32Facts

theorem u32le_length (n : Nat) : (u32le n).length = 4 := rfl

theorem u32leDecode_cons (b0 b1 b2 b3 : Nat) (rest : List Nat) :
    u32leDecode (b0 :: b1 :: b2 :: b3 :: rest) =
      b0 + 256 * b1 + 65536 * b2 + 16777216 * b3 := rfl

theorem u32leDecode_u32le (n : Nat) :
    u32leDecode (u32le n) = n % 4294967296 := by
  simp only [u32le, u32leDecode]
  omega

theorem u32leDecode_u32le_append (n : Nat) (rest : List Nat) :
    u32leDecode (u32le n ++ rest) = n % 4294967296 := by
  simp only [u32le, List.cons_append, List.nil_append, u32leDecode]
  omega

end U32Facts

section DigitFacts

theorem digitChar_isDigit (d : Nat) : isDigit (digitChar d) = true := by
  unfold digitChar
  split <;> decide

theorem digitVal_digitChar {d : Nat} (h : d < 10) :
    digitVal (digitChar d) = d := by
  interval_cases d <;> decide

theorem natDigitsAux_irrel : ∀ n f g, n < f → n < g →
    natDigitsAux f n = natDigitsAux g n := by
  intro n
  induction n using Nat.strong_induction_on with
  | _ n ih =>
    intro f g hf hg
    match f, g with
    | f' + 1, g' + 1 =>
      simp only [natDigitsAux]
      by_cases h10 : n < 10
      · simp [h10]
      · rw [if_neg h10, if_neg h10, ih (n / 10) (by omega) f' g' (by omega) (by omega)]

/-- Unfolding equation for `natDigits` free of the fuel argument. -/
theorem natDigits_eq (n : Nat) :
    natDigits n =
      if n < 10 then [digitChar n]
      else natDigits (n / 10) ++ [digitChar (n % 10)] := by
  by_cases h10 : n < 10
  · rw [if_pos h10]
    unfold natDigits natDigitsAux
    rw [if_pos h10]
  · rw [if_neg h10]
    show natDigitsAux (n + 1) n = _
    rw [natDigitsAux, if_neg h10,
      natDigitsAux_irrel (n / 10) n (n / 10 + 1) (by omega) (by omega)]
    rfl

theorem natDigits_ne_nil (n : Nat) : natDigits n ≠ [] := by
  rw [natDigits_eq]
  split <;> simp

theorem natDigits_all_digits : ∀ n c, c ∈ natDigits n → isDigit c = true := by
  intro n
  induction n using Nat.strong_induction_on with
  | _ n ih =>
    intro c hc
    rw [natDigits_eq] at hc
    by_cases h10 : n < 10
    · rw [if_pos h10] at hc
      simp only [List.mem_singleton] at hc
      subst hc
      exact digitChar_isDigit n
    · rw [if_neg h10] at hc
      rcases List.mem_append.mp hc with h | h
      · exact ih (n / 10) (by omega) c h
      · simp only [List.mem_singleton] at h
        subst h
        exact digitChar_isDigit (n % 10)

theorem foldl_natDigits : ∀ n a,
    List.foldl (fun a c => a * 10 + digitVal c) a (natDigits n) =
      a * 10 ^ (natDigits n).length + n := by
  intro n
  induction n using Nat.strong_induction_on with
  | _ n ih =>
    intro a
    rw [natDigits_eq]
    by_cases h10 : n < 10
    · rw [if_pos h10]
      simp [List.foldl, digitVal_digitChar h10]
    · rw [if_neg h10]
      rw [List.foldl_append, ih (n / 10) (by omega) a]
      simp only [List.foldl, List.length_append, List.length_singleton]
      have hmod : digitVal (digitChar (n % 10)) = n % 10 :=
        digitVal_digitChar (by omega)
      rw [hmod, pow_succ]
      have e : (a * 10 ^ (natDigits (n / 10)).length + n / 10) * 10 + n % 10 =
          a * (10 ^ (natDigits (n / 10)).length * 10) + (n / 10 * 10 + n % 10) := by
        ring
      have hdm : n / 10 * 10 + n % 10 = n := by omega
      rw [e, hdm]

theorem digitsToNat_natDigits (n : Nat) : digitsToNat (natDigits n) = n := by
  unfold digitsToNat
  rw [foldl_natDigits n 0]
  simp

end DigitFacts

section NumberRoundTrip

theorem takeWhile_append_all {p : Char → Bool} :
    ∀ (l rest : List Char), (∀ c ∈ l, p c = true) →
      (∀ c, rest.head? = some c → p c = false) →
      (l ++ rest).takeWhile p = l ∧ (l ++ rest).dropWhile p = rest := by
  intro l
  induction l with
  | nil =>
    intro rest _ hrest
    cases rest with
    | nil => exact ⟨rfl, rfl⟩
    | cons r rs =>
      have hr := hrest r rfl
      constructor
      · simp [List.takeWhile_cons, hr]
      · simp [List.dropWhile_cons, hr]
  | cons c l ih =>
    intro rest hl hrest
    have hc : p c = true := hl c (by simp)
    have hl' : ∀ x ∈ l, p x = true := fun x hx => hl x (by simp [hx])
    obtain ⟨ht, hd⟩ := ih rest hl' hrest
    constructor
    · simp [List.takeWhile_cons, hc, ht]
    · simp [List.dropWhile_cons, hc, hd]

theorem natDigits_head (n : Nat) :
    ∃ d ds, natDigits n = d :: ds ∧ isDigit d = true := by
  cases hnd : natDigits n with
  | nil => exact absurd hnd (natDigits_ne_nil n)
  | cons d ds =>
    refine ⟨d, ds, rfl, natDigits_all_digits n d ?_⟩
    rw [hnd]
    simp

theorem isDigit_ne_minus {c : Char} (h : isDigit c = true) : c ≠ '-' := by
  intro he
  subst he
  exact absurd h (by decide)

theorem parseNatPart_natDigits (n : Nat) (rest : List Char) (h : digitFree rest) :
    parseNatPart (natDigits n ++ rest) = some (n, rest) := by
  obtain ⟨tw, dw⟩ := takeWhile_append_all (natDigits n) rest (natDigits_all_digits n) h
  obtain ⟨d, ds, hd, _⟩ := natDigits_head n
  unfold parseNatPart
  rw [tw, dw, hd]
  show some (digitsToNat (d :: ds), rest) = some (n, rest)
  rw [← hd, digitsToNat_natDigits]

theorem parseNumber_renderInt (i : Int) (rest : List Char) (h : digitFree rest) :
    parseNumber (renderInt i ++ rest) = some (i, rest) := by
  unfold renderInt
  by_cases hi : i < 0
  · rw [if_pos hi]
    simp only [List.cons_append, parseNumber, if_pos rfl]
    rw [parseNatPart_natDigits i.natAbs rest h]
    have he : -((i.natAbs : Nat) : Int) = i := by omega
    show some (-((i.natAbs : Nat) : Int), rest) = some (i, rest)
    rw [he]
  · rw [if_neg hi]
    obtain ⟨d, ds, hd, hdig⟩ := natDigits_head i.toNat
    rw [hd]
    simp only [List.cons_append, parseNumber, if_neg (isDigit_ne_minus hdig)]
    rw [show d :: (ds ++ rest) = (d :: ds) ++ rest from rfl, ← hd,
      parseNatPart_natDigits i.toNat rest h]
    have he : ((i.toNat : Nat) : Int) = i := by omega
    show some (((i.toNat : Nat) : Int), rest) = some (i, rest)
    rw [he]

end NumberRoundTrip

section Utf8RoundTrip

theorem utf8Decode_char (c : Char) (bs : List Nat) :
    utf8Decode (utf8Char c ++ bs) = (utf8Decode bs).map (fun s => c :: s) := by
  have hv := char_toNat_valid c
  simp only [utf8Char]
  by_cases h1 : c.toNat < 128
  · rw [if_pos h1]
    simp only [List.cons_append, List.nil_append]
    conv_lhs => rw [utf8Decode]
    rw [if_pos h1]
    simp only [Char.ofNat_toNat]
  · rw [if_neg h1]
    by_cases h2 : c.toNat < 2048
    · rw [if_pos h2]
      simp only [List.cons_append, List.nil_append]
      conv_lhs => rw [utf8Decode]
      rw [if_neg (by omega), if_neg (by omega), if_pos (by omega)]
      rw [utf8Dec2, if_pos (by omega)]
      simp only [show (192 + c.toNat / 64 - 192) * 64 + (128 + c.toNat % 64 - 128)
          = c.toNat from by omega, Char.ofNat_toNat]
    · rw [if_neg h2]
      by_cases h3 : c.toNat < 65536
      · rw [if_pos h3]
        simp only [List.cons_append, List.nil_append]
        conv_lhs => rw [utf8Decode]
        rw [if_neg (by omega), if_neg (by omega), if_neg (by omega),
          if_pos (by omega)]
        rw [utf8Dec3, if_pos (by omega)]
        rw [if_pos (by omega)]
        simp only [show (224 + c.toNat / 4096 - 224) * 4096 +
            (128 + c.toNat / 64 % 64 - 128) * 64 + (128 + c.toNat % 64 - 128)
          = c.toNat from by omega, Char.ofNat_toNat]
      · rw [if_neg h3]
        simp only [List.cons_append, List.nil_append]
        conv_lhs => rw [utf8Decode]
        rw [if_neg (by omega), if_neg (by omega), if_neg (by omega),
          if_neg (by omega), if_pos (by omega)]
        rw [utf8Dec4, if_pos (by omega)]
        rw [if_pos (by omega)]
        simp only [show (240 + c.toNat / 262144 - 240) * 262144 +
            (128 + c.toNat / 4096 % 64 - 128) * 4096 +
            (128 + c.toNat / 64 % 64 - 128) * 64 + (128 + c.toNat % 64 - 128)
          = c.toNat from by omega, Char.ofNat_toNat]

theorem utf8Decode_encode : ∀ s, utf8Decode (utf8Encode s) = some s := by
  intro s
  induction s with
  | nil => rfl
  | cons c s ih =>
    rw [show utf8Encode (c :: s) = utf8Char c ++ utf8Encode s from rfl,
      utf8Decode_char, ih]
    rfl

end Utf8RoundTrip

section StringRoundTrip

theorem hexVal_hexDig {d : Nat} (h : d < 16) : hexVal (hexDig d) = some d := by
  interval_cases d <;> decide

theorem parseStringRest_escape : ∀ s rest,
    parseStringRest (escapeStr s ++ '"' :: rest) = some (s, rest) := by
  intro s
  induction s with
  | nil =>
    intro rest
    show parseStringRest ([] ++ '"' :: rest) = some ([], rest)
    rw [List.nil_append, parseStringRest.eq_def]
    dsimp only
    rw [if_pos rfl]
  | cons c s ih =>
    intro rest
    show parseStringRest ((escapeChar c ++ escapeStr s) ++ '"' :: rest) = _
    rw [List.append_assoc]
    unfold escapeChar
    split_ifs with h1 h2 h3 h4 h5 h6 h7 h8
    · subst h1
      simp only [List.cons_append, List.nil_append]
      rw [parseStringRest.eq_def]
      dsimp only
      simp [ih]
    · subst h2
      simp only [List.cons_append, List.nil_append]
      rw [parseStringRest.eq_def]
      dsimp only
      simp [ih]
    · subst h3
      simp only [List.cons_append, List.nil_append]
      rw [parseStringRest.eq_def]
      dsimp only
      simp [ih]
    · subst h4
      simp only [List.cons_append, List.nil_append]
      rw [parseStringRest.eq_def]
      dsimp only
      simp [ih]
    · subst h5
      simp only [List.cons_append, List.nil_append]
      rw [parseStringRest.eq_def]
      dsimp only
      simp [ih]
    · subst h6
      simp only [List.cons_append, List.nil_append]
      rw [parseStringRest.eq_def]
      dsimp only
      simp [ih]
    · subst h7
      simp only [List.cons_append, List.nil_append]
      rw [parseStringRest.eq_def]
      dsimp only
      simp [ih]
    · -- control character rendered as a unicode escape
      simp only [List.cons_append, List.nil_append]
      rw [parseStringRest.eq_def]
      dsimp only
      rw [show hexVal '0' = some 0 from rfl,
        hexVal_hexDig (show c.toNat / 16 < 16 by omega),
        hexVal_hexDig (show c.toNat % 16 < 16 by omega)]
      have harg : 0 * 4096 + 0 * 256 + c.toNat / 16 * 16 + c.toNat % 16
          = c.toNat := by omega
      simp only [harg]
      rw [if_pos (show c.toNat < 55296 by omega)]
      simp [ih, Char.ofNat_toNat]
    · -- verbatim character
      simp only [List.cons_append, List.nil_append]
      rw [parseStringRest.eq_def]
      dsimp only
      rw [if_neg h1, if_neg h2, ih]
      rfl

end StringRoundTrip

section ShapeFacts

theorem one_le_sizeV (v : Value) : 1 ≤ sizeV v := by
  cases v <;> simp only [sizeV] <;> omega

theorem one_le_sizeL (l : List Value) : 1 ≤ sizeL l := by
  cases l <;> simp only [sizeL] <;> omega

theorem one_le_sizeM (m : List (List Char × Value)) : 1 ≤ sizeM m := by
  cases m with
  | nil => simp only [sizeM]; omega
  | cons p m => obtain ⟨k, v⟩ := p; simp only [sizeM]; omega

theorem renderInt_cons (i : Int) :
    ∃ c t, renderInt i = c :: t ∧ (c = '-' ∨ isDigit c = true) := by
  unfold renderInt
  by_cases hi : i < 0
  · rw [if_pos hi]
    exact ⟨'-', _, rfl, Or.inl rfl⟩
  · rw [if_neg hi]
    obtain ⟨d, ds, hd, hdig⟩ := natDigits_head i.toNat
    exact ⟨d, ds, hd, Or.inr hdig⟩

theorem renderValue_cons (v : Value) :
    ∃ c t, renderValue v = c :: t ∧
      (c = 'n' ∨ c = 't' ∨ c = 'f' ∨ c = '"' ∨ c = '[' ∨ c = '\x7b' ∨
        c = '-' ∨ isDigit c = true) := by
  cases v with
  | null => exact ⟨'n', _, rfl, by simp⟩
  | bool b => cases b
              · exact ⟨'f', _, rfl, by simp⟩
              · exact ⟨'t', _, rfl, by simp⟩
  | num i =>
    obtain ⟨c, t, hct, hcl⟩ := renderInt_cons i
    refine ⟨c, t, hct, ?_⟩
    rcases hcl with h | h
    · exact Or.inr (Or.inr (Or.inr (Or.inr (Or.inr (Or.inr (Or.inl h))))))
    · exact Or.inr (Or.inr (Or.inr (Or.inr (Or.inr (Or.inr (Or.inr h))))))
  | str s => exact ⟨'"', _, rfl, by simp⟩
  | arr l => exact ⟨'[', _, rfl, by simp⟩
  | obj m => exact ⟨'\x7b', _, rfl, by simp⟩

theorem head_class_ne {c : Char}
    (h : c = 'n' ∨ c = 't' ∨ c = 'f' ∨ c = '"' ∨ c = '[' ∨ c = '\x7b' ∨
      c = '-' ∨ isDigit c = true) :
    c ≠ ']' ∧ c ≠ '\x7d' := by
  have hb : (']' : Char).toNat = 93 := rfl
  have hb2 : ('\x7d' : Char).toNat = 125 := rfl
  rcases h with rfl | rfl | rfl | rfl | rfl | rfl | rfl | hd
  · exact ⟨by decide, by decide⟩
  · exact ⟨by decide, by decide⟩
  · exact ⟨by decide, by decide⟩
  · exact ⟨by decide, by decide⟩
  · exact ⟨by decide, by decide⟩
  · exact ⟨by decide, by decide⟩
  · exact ⟨by decide, by decide⟩
  · obtain ⟨hlo, hhi⟩ := isDigit_toNat hd
    exact ⟨char_ne_of_toNat_ne (by omega), char_ne_of_toNat_ne (by omega)⟩

theorem num_head_ne {c : Char} (h : c = '-' ∨ isDigit c = true) :
    c ≠ 'n' ∧ c ≠ 't' ∧ c ≠ 'f' ∧ c ≠ '"' ∧ c ≠ '[' ∧ c ≠ '\x7b' := by
  have e1 : ('n' : Char).toNat = 110 := rfl
  have e2 : ('t' : Char).toNat = 116 := rfl
  have e3 : ('f' : Char).toNat = 102 := rfl
  have e4 : ('"' : Char).toNat = 34 := rfl
  have e5 : ('[' : Char).toNat = 91 := rfl
  have e6 : ('\x7b' : Char).toNat = 123 := rfl
  rcases h with rfl | hd
  · exact ⟨by decide, by decide, by decide, by decide, by decide, by decide⟩
  · obtain ⟨hlo, hhi⟩ := isDigit_toNat hd
    exact ⟨char_ne_of_toNat_ne (by omega), char_ne_of_toNat_ne (by omega),
      char_ne_of_toNat_ne (by omega), char_ne_of_toNat_ne (by omega),
      char_ne_of_toNat_ne (by omega), char_ne_of_toNat_ne (by omega)⟩

theorem digitFree_nil : digitFree [] := by
  intro c h
  simp at h

theorem digitFree_cons {c : Char} (h : isDigit c = false) (t : List Char) :
    digitFree (c :: t) := by
  intro d hd
  simp only [List.head?_cons, Option.some.injEq] at hd
  rw [← hd]
  exact h

theorem renderElems_cons_shape (v0 : Value) (l' : List Value) :
    ∃ c0 t0, renderElems (v0 :: l') = c0 :: t0 ∧ c0 ≠ ']' ∧ c0 ≠ '\x7d' := by
  obtain ⟨c, t, hct, hcl⟩ := renderValue_cons v0
  obtain ⟨hne1, hne2⟩ := head_class_ne hcl
  cases l' with
  | nil => exact ⟨c, t, hct, hne1, hne2⟩
  | cons v1 l'' =>
    refine ⟨c, t ++ ',' :: renderElems (v1 :: l''), ?_, hne1, hne2⟩
    show renderValue v0 ++ ',' :: renderElems (v1 :: l'') = _
    rw [hct, List.cons_append]

theorem renderMembers_cons_shape (k : List Char) (v : Value)
    (m' : List (List Char × Value)) :
    ∃ t0, renderMembers ((k, v) :: m') = '"' :: t0 := by
  cases m' with
  | nil => exact ⟨_, rfl⟩
  | cons p ms =>
    obtain ⟨k1, v1⟩ := p
    exact ⟨_, rfl⟩

end ShapeFacts

section ParserReduction

theorem parseValue_quote (f : Nat) (X : List Char) :
    parseValue (f + 1) ('"' :: X) =
      (parseStringRest X).map (fun p => (Value.str p.1, p.2)) := rfl

theorem parseValue_lbracket (f : Nat) (X : List Char) :
    parseValue (f + 1) ('[' :: X) =
      if X.head? = some ']' then some (.arr [], X.tail)
      else (parseElems f X).map (fun p => (.arr p.1, p.2)) := rfl

theorem parseValue_lbrace (f : Nat) (X : List Char) :
    parseValue (f + 1) ('\x7b' :: X) =
      if X.head? = some '\x7d' then some (.obj [], X.tail)
      else (parseMembers f X).map (fun p => (.obj p.1, p.2)) := rfl

theorem parseElems_succ (f : Nat) (cs : List Char) :
    parseElems (f + 1) cs =
      match parseValue f cs with
      | none => none
      | some (v, r) =>
        if r.head? = some ',' then
          match parseElems f r.tail with
          | some (l, r1) => some (v :: l, r1)
          | none => none
        else if r.head? = some ']' then some ([v], r.tail)
        else none := rfl

theorem parseMembers_succ_quote (f : Nat) (Y : List Char) :
    parseMembers (f + 1) ('"' :: Y) =
      match parseStringRest Y with
      | none => none
      | some (k, r1) =>
        if r1.head? = some ':' then
          match parseValue f r1.tail with
          | none => none
          | some (v, r2) =>
            if r2.head? = some ',' then
              match parseMembers f r2.tail with
              | some (m, r3) => some ((k, v) :: m, r3)
              | none => none
            else if r2.head? = some '\x7d' then some ([(k, v)], r2.tail)
            else none
        else none := rfl

end ParserReduction

section MasterRoundTrip

theorem parseValue_cons_eq (f : Nat) (c : Char) (r : List Char) :
    parseValue (f + 1) (c :: r) =
      if c = 'n' then
        match r with
        | c1 :: c2 :: c3 :: r1 =>
          if c1 = 'u' ∧ c2 = 'l' ∧ c3 = 'l' then some (.null, r1) else none
        | _ => none
      else if c = 't' then
        match r with
        | c1 :: c2 :: c3 :: r1 =>
          if c1 = 'r' ∧ c2 = 'u' ∧ c3 = 'e' then some (.bool true, r1) else none
        | _ => none
      else if c = 'f' then
        match r with
        | c1 :: c2 :: c3 :: c4 :: r1 =>
          if c1 = 'a' ∧ c2 = 'l' ∧ c3 = 's' ∧ c4 = 'e' then some (.bool false, r1)
          else none
        | _ => none
      else if c = '"' then
        (parseStringRest r).map (fun p => (.str p.1, p.2))
      else if c = '[' then
        if r.head? = some ']' then some (.arr [], r.tail)
        else (parseElems f r).map (fun p => (.arr p.1, p.2))
      else if c = '\x7b' then
        if r.head? = some '\x7d' then some (.obj [], r.tail)
        else (parseMembers f r).map (fun p => (.obj p.1, p.2))
      else (parseNumber (c :: r)).map (fun p => (.num p.1, p.2)) := rfl

theorem parse_render_master : ∀ f, ParseVGood f ∧ ParseLGood f ∧ ParseMGood f := by
  intro f
  induction f using Nat.strong_induction_on with
  | _ f ih =>
    refine ⟨?_, ?_, ?_⟩
    · -- ParseVGood
      intro v rest hsz hrest
      have hf : 1 ≤ f := le_trans (one_le_sizeV v) hsz
      obtain ⟨f', rfl⟩ : ∃ f', f = f' + 1 := ⟨f - 1, by omega⟩
      obtain ⟨hV, hL, hM⟩ := ih f' (by omega)
      cases v with
      | null => exact rfl
      | bool b => cases b <;> rfl
      | num i =>
        obtain ⟨c, t, hct, hcl⟩ := renderInt_cons i
        obtain ⟨h1, h2, h3, h4, h5, h6⟩ := num_head_ne hcl
        show parseValue (f' + 1) (renderInt i ++ rest) = some (.num i, rest)
        rw [hct, List.cons_append, parseValue_cons_eq,
          if_neg h1, if_neg h2, if_neg h3, if_neg h4, if_neg h5, if_neg h6,
          show c :: (t ++ rest) = (c :: t) ++ rest from rfl, ← hct,
          parseNumber_renderInt i rest hrest]
        rfl
      | str s =>
        show parseValue (f' + 1)
          (('"' :: (escapeStr s ++ ['"'])) ++ rest) = some (.str s, rest)
        rw [List.cons_append, List.append_assoc,
          show (['"'] : List Char) ++ rest = '"' :: rest from rfl,
          parseValue_quote, parseStringRest_escape]
        rfl
      | arr l =>
        cases l with
        | nil => exact rfl
        | cons v0 l' =>
          have hszL : sizeL (v0 :: l') ≤ f' := by
            have e : sizeV (.arr (v0 :: l')) = 1 + sizeL (v0 :: l') := rfl
            omega
          have hren : renderValue (.arr (v0 :: l')) ++ rest
              = '[' :: (renderElems (v0 :: l') ++ ']' :: rest) := by
            show ('[' :: (renderElems (v0 :: l') ++ [']'])) ++ rest = _
            rw [List.cons_append, List.append_assoc]
            rfl
          rw [hren, parseValue_lbracket]
          obtain ⟨c0, t0, hc0, hne1, _⟩ := renderElems_cons_shape v0 l'
          have hhd : (renderElems (v0 :: l') ++ ']' :: rest).head? ≠ some ']' := by
            rw [hc0, List.cons_append, List.head?_cons]
            intro h
            exact hne1 (Option.some.inj h)
          rw [if_neg hhd, hL v0 l' rest hszL]
          rfl
      | obj m =>
        cases m with
        | nil => exact rfl
        | cons p m' =>
          obtain ⟨k, v⟩ := p
          have hszM : sizeM ((k, v) :: m') ≤ f' := by
            have e : sizeV (.obj ((k, v) :: m')) = 1 + sizeM ((k, v) :: m') := rfl
            omega
          have hren : renderValue (.obj ((k, v) :: m')) ++ rest
              = '\x7b' :: (renderMembers ((k, v) :: m') ++ '\x7d' :: rest) := by
            show ('\x7b' :: (renderMembers ((k, v) :: m') ++ ['\x7d'])) ++ rest = _
            rw [List.cons_append, List.append_assoc]
            rfl
          rw [hren, parseValue_lbrace]
          obtain ⟨t0, ht0⟩ := renderMembers_cons_shape k v m'
          have hhd : (renderMembers ((k, v) :: m') ++ '\x7d' :: rest).head?
              ≠ some '\x7d' := by
            rw [ht0, List.cons_append, List.head?_cons]
            intro h
            exact absurd (Option.some.inj h) (by decide)
          rw [if_neg hhd, hM k v m' rest hszM]
          rfl
    · -- ParseLGood
      intro v l rest hsz
      have hf : 1 ≤ f := le_trans (one_le_sizeL (v :: l)) hsz
      obtain ⟨f', rfl⟩ : ∃ f', f = f' + 1 := ⟨f - 1, by omega⟩
      obtain ⟨hV, hL, hM⟩ := ih f' (by omega)
      have e : sizeL (v :: l) = 1 + sizeV v + sizeL l := rfl
      have hsV : sizeV v ≤ f' := by
        have := one_le_sizeL l
        omega
      cases l with
      | nil =>
        rw [parseElems_succ,
          show renderElems [v] ++ ']' :: rest = renderValue v ++ ']' :: rest
            from rfl,
          hV v (']' :: rest) hsV (digitFree_cons (by decide) rest)]
        rfl
      | cons v1 l' =>
        have hren : renderElems (v :: v1 :: l') ++ ']' :: rest
            = renderValue v ++ ',' :: (renderElems (v1 :: l') ++ ']' :: rest) := by
          show (renderValue v ++ ',' :: renderElems (v1 :: l')) ++ ']' :: rest = _
          rw [List.append_assoc]
          rfl
        have hszL' : sizeL (v1 :: l') ≤ f' := by
          have e2 : sizeL (v :: v1 :: l') = 1 + sizeV v + sizeL (v1 :: l') := rfl
          have := one_le_sizeV v
          omega
        rw [parseElems_succ, hren,
          hV v (',' :: (renderElems (v1 :: l') ++ ']' :: rest)) hsV
            (digitFree_cons (by decide) _)]
        dsimp only
        rw [List.head?_cons, if_pos rfl, List.tail_cons, hL v1 l' rest hszL']
    · -- ParseMGood
      intro k v m rest hsz
      have hf : 1 ≤ f := le_trans (one_le_sizeM ((k, v) :: m)) hsz
      obtain ⟨f', rfl⟩ : ∃ f', f = f' + 1 := ⟨f - 1, by omega⟩
      obtain ⟨hV, hL, hM⟩ := ih f' (by omega)
      have e : sizeM ((k, v) :: m) = 1 + sizeV v + sizeM m := rfl
      have hsV : sizeV v ≤ f' := by
        have := one_le_sizeM m
        omega
      cases m with
      | nil =>
        have hren : renderMembers [(k, v)] ++ '\x7d' :: rest
            = '"' :: (escapeStr k ++ '"' :: ':' :: (renderValue v ++ '\x7d' :: rest)) := by
          show ('"' :: (escapeStr k ++ '"' :: ':' :: renderValue v)) ++ '\x7d' :: rest = _
          rw [List.cons_append, List.append_assoc]
          rfl
        rw [hren, parseMembers_succ_quote,
          parseStringRest_escape k (':' :: (renderValue v ++ '\x7d' :: rest))]
        dsimp only
        rw [List.head?_cons, if_pos rfl, List.tail_cons,
          hV v ('\x7d' :: rest) hsV (digitFree_cons (by decide) rest)]
        dsimp only
        rw [List.head?_cons, if_neg (by decide), if_pos rfl, List.tail_cons]
      | cons p m' =>
        obtain ⟨k1, v1⟩ := p
        have hren : renderMembers ((k, v) :: (k1, v1) :: m') ++ '\x7d' :: rest
            = '"' :: (escapeStr k ++ '"' :: ':' ::
                (renderValue v ++ ',' ::
                  (renderMembers ((k1, v1) :: m') ++ '\x7d' :: rest))) := by
          show (('"' :: (escapeStr k ++ '"' :: ':' :: renderValue v)) ++
              ',' :: renderMembers ((k1, v1) :: m')) ++ '\x7d' :: rest = _
          rw [List.append_assoc, List.cons_append, List.append_assoc]
          simp only [List.cons_append, List.append_assoc]
        have hszM' : sizeM ((k1, v1) :: m') ≤ f' := by
          have e2 : sizeM ((k, v) :: (k1, v1) :: m')
              = 1 + sizeV v + sizeM ((k1, v1) :: m') := rfl
          have := one_le_sizeV v
          omega
        rw [hren, parseMembers_succ_quote,
          parseStringRest_escape k
            (':' :: (renderValue v ++ ',' ::
              (renderMembers ((k1, v1) :: m') ++ '\x7d' :: rest)))]
        dsimp only
        rw [List.head?_cons, if_pos rfl, List.tail_cons,
          hV v (',' :: (renderMembers ((k1, v1) :: m') ++ '\x7d' :: rest)) hsV
            (digitFree_cons (by decide) _)]
        dsimp only
        rw [List.head?_cons, if_pos rfl, List.tail_cons, hM k1 v1 m' rest hszM']

end MasterRoundTrip

section FuelBound

theorem sizeBound : ∀ n : Nat,
    (∀ v : Value, sizeOf v ≤ n → sizeV v ≤ 2 * (renderValue v).length) ∧
    (∀ l : List Value, sizeOf l ≤ n → sizeL l ≤ 2 * (renderElems l).length + 2) ∧
    (∀ m : List (List Char × Value), sizeOf m ≤ n →
      sizeM m ≤ 2 * (renderMembers m).length + 2) := by
  intro n
  induction n using Nat.strong_induction_on with
  | _ n ih =>
    refine ⟨?_, ?_, ?_⟩
    · intro v hv
      cases v with
      | null => decide
      | bool b => cases b <;> decide
      | num i =>
        obtain ⟨c, t, hct, _⟩ := renderInt_cons i
        show sizeV (.num i) ≤ 2 * (renderInt i).length
        rw [hct]
        simp only [sizeV, List.length_cons]
        omega
      | str s =>
        show sizeV (.str s) ≤ 2 * ('"' :: (escapeStr s ++ ['"'])).length
        simp only [sizeV, List.length_cons]
        omega
      | arr l =>
        have hsz : sizeOf (Value.arr l) = 1 + sizeOf l := by simp
        have hn : 1 ≤ n := by omega
        obtain ⟨_, B', _⟩ := ih (n - 1) (by omega)
        have hb := B' l (by omega)
        show sizeV (.arr l) ≤ 2 * ('[' :: (renderElems l ++ [']'])).length
        simp only [sizeV, List.length_cons, List.length_append,
          List.length_singleton]
        omega
      | obj m =>
        have hsz : sizeOf (Value.obj m) = 1 + sizeOf m := by simp
        have hn : 1 ≤ n := by omega
        obtain ⟨_, _, C'⟩ := ih (n - 1) (by omega)
        have hc := C' m (by omega)
        show sizeV (.obj m) ≤ 2 * ('\x7b' :: (renderMembers m ++ ['\x7d'])).length
        simp only [sizeV, List.length_cons, List.length_append,
          List.length_singleton]
        omega
    · intro l hl
      cases l with
      | nil => decide
      | cons v t =>
        have hsz : sizeOf (v :: t) = 1 + sizeOf v + sizeOf t := by simp
        have hv1 : 1 ≤ sizeOf v := by cases v <;> simp
        have hn : 1 ≤ n := by omega
        obtain ⟨A', B', _⟩ := ih (n - 1) (by omega)
        have ha := A' v (by omega)
        have he : sizeL (v :: t) = 1 + sizeV v + sizeL t := rfl
        cases t with
        | nil =>
          show sizeL [v] ≤ 2 * (renderValue v).length + 2
          rw [he]
          have : sizeL ([] : List Value) = 1 := rfl
          omega
        | cons v1 t' =>
          have hb := B' (v1 :: t') (by omega)
          show sizeL (v :: v1 :: t') ≤
            2 * (renderValue v ++ ',' :: renderElems (v1 :: t')).length + 2
          rw [he]
          simp only [List.length_append, List.length_cons]
          omega
    · intro m hm
      cases m with
      | nil => decide
      | cons p t =>
        obtain ⟨k, v⟩ := p
        have hsz : sizeOf ((k, v) :: t) = 1 + (1 + sizeOf k + sizeOf v) + sizeOf t := by
          simp
        have hv1 : 1 ≤ sizeOf v := by cases v <;> simp
        have hn : 1 ≤ n := by omega
        obtain ⟨A', _, C'⟩ := ih (n - 1) (by omega)
        have ha := A' v (by omega)
        have he : sizeM ((k, v) :: t) = 1 + sizeV v + sizeM t := rfl
        cases t with
        | nil =>
          show sizeM [(k, v)] ≤
            2 * ('"' :: (escapeStr k ++ '"' :: ':' :: renderValue v)).length + 2
          rw [he]
          have : sizeM ([] : List (List Char × Value)) = 1 := rfl
          simp only [List.length_cons, List.length_append]
          omega
        | cons p1 t' =>
          obtain ⟨k1, v1⟩ := p1
          have hc := C' ((k1, v1) :: t') (by omega)
          show sizeM ((k, v) :: (k1, v1) :: t') ≤
            2 * (('"' :: (escapeStr k ++ '"' :: ':' :: renderValue v)) ++
              ',' :: renderMembers ((k1, v1) :: t')).length + 2
          rw [he]
          simp only [List.length_cons, List.length_append]
          omega

theorem sizeV_le_fuel (v : Value) :
    sizeV v ≤ 2 * (renderValue v).length + 2 := by
  have := (sizeBound (sizeOf v)).1 v le_rfl
  omega

/-- Round trip of the full serializer and deserializer models. -/
theorem fromSlice_render (v : Value) :
    fromSlice (utf8Encode (renderValue v)) = some v := by
  unfold fromSlice
  rw [utf8Decode_encode]
  dsimp only
  have hP := (parse_render_master (2 * (renderValue v).length + 2)).1
  have hres := hP v [] (sizeV_le_fuel v) digitFree_nil
  rw [List.append_nil] at hres
  rw [hres]

end FuelBound

section FrameFacts

theorem asI64_replyMessage (i : Int) (v : Value)
    (hi : -(2 ^ 63) ≤ i ∧ i < 2 ^ 63) :
    asI64 (replyMessage i v) rpcKey = some i := by
  show (if -(2 ^ 63) ≤ i ∧ i < 2 ^ 63 then some i else none) = some i
  rw [if_pos hi]

theorem frameOf_length (v : Value) :
    (frameOf v).length = 4 + msgLen v := by
  unfold frameOf
  rw [List.length_append, u32le_length]
  rfl

theorem frameOf_take4 (v : Value) :
    (frameOf v).take 4 = u32le (msgLen v) := by
  unfold frameOf
  exact List.take_left' (u32le_length (msgLen v))

theorem frameOf_drop4 (v : Value) :
    (frameOf v).drop 4 = msgBytes v := by
  unfold frameOf
  exact List.drop_left' (u32le_length (msgLen v))

/-- Behaviour of the reader on a well-formed frame whose payload length fits
the 32-bit length field: the frame is consumed whole, the payload parses
back to the message, and the outcome is decided by the `rpc_id` lookup. -/
theorem stdin_frame (v : Value) (hlen : msgLen v < 4294967296) :
    stdin (frameOf v) =
      match asI64 v rpcKey with
      | none => (.fail .protocolError, [])
      | some rpc_id => (.ok rpc_id v, []) := by
  have hml : (msgBytes v).length = msgLen v := rfl
  unfold stdin
  dsimp only
  rw [frameOf_take4, frameOf_drop4, frameOf_length, u32leDecode_u32le,
    Nat.mod_eq_of_lt hlen, hml]
  rw [if_neg (by omega), if_neg (lt_irrefl _)]
  rw [show (msgBytes v).take (msgLen v) = msgBytes v from by
      rw [← hml]; exact List.take_length _,
    show (msgBytes v).drop (msgLen v) = ([] : List Nat) from by
      rw [← hml]; exact List.drop_length _,
    show msgBytes v = utf8Encode (renderValue v) from rfl, fromSlice_render]

end FrameFacts

section BigValue

theorem escapeStr_replicate (n : Nat) :
    escapeStr (List.replicate n 'a') = List.replicate n 'a' := by
  induction n with
  | zero => rfl
  | succ n ih =>
    rw [List.replicate_succ]
    show escapeChar 'a' ++ escapeStr (List.replicate n 'a') = _
    rw [ih, show escapeChar 'a' = ['a'] from rfl]
    rfl

theorem utf8Encode_append (a b : List Char) :
    utf8Encode (a ++ b) = utf8Encode a ++ utf8Encode b := by
  induction a with
  | nil => rfl
  | cons c t ih =>
    show utf8Char c ++ utf8Encode (t ++ b) = (utf8Char c ++ utf8Encode t) ++ _
    rw [ih, List.append_assoc]

theorem utf8Encode_replicate (n : Nat) :
    utf8Encode (List.replicate n 'a') = List.replicate n 97 := by
  induction n with
  | zero => rfl
  | succ n ih =>
    rw [List.replicate_succ, List.replicate_succ]
    show utf8Char 'a' ++ utf8Encode (List.replicate n 'a') = _
    rw [ih, show utf8Char 'a' = [97] from rfl]
    rfl

theorem escapeStr_bigStr : escapeStr bigStr = bigStr := by
  unfold bigStr
  exact escapeStr_replicate _

theorem utf8Encode_bigStr : utf8Encode bigStr = List.replicate 4294967296 97 := by
  unfold bigStr
  exact utf8Encode_replicate _

theorem render_bigVal : renderValue bigVal = '"' :: (bigStr ++ ['"']) := by
  show '"' :: (escapeStr bigStr ++ ['"']) = _
  rw [escapeStr_bigStr]

theorem msgLen_bigVal : msgLen bigVal = 4294967298 := by
  show (utf8Encode (renderValue bigVal)).length = _
  rw [render_bigVal,
    show utf8Encode ('"' :: (bigStr ++ ['"']))
      = utf8Char '"' ++ utf8Encode (bigStr ++ ['"']) from rfl,
    utf8Encode_append, utf8Encode_bigStr]
  simp only [List.length_append, List.length_replicate,
    show (utf8Char '"').length = 1 from rfl,
    show (utf8Encode ['"']).length = 1 from rfl]

theorem render_reply_str (s : List Char) :
    renderValue (replyMessage 0 (.str s)) =
      bigPrefix ++ (escapeStr s ++ bigSuffix) := by
  show renderValue (.obj [(replyKey, .str s), (rpcKey, .num 0)]) = _
  simp only [renderValue, renderMembers]
  rw [show escapeStr replyKey = ['r', 'e', 'p', 'l', 'y'] from rfl,
    show escapeStr rpcKey = ['r', 'p', 'c', '_', 'i', 'd'] from rfl,
    show renderInt 0 = ['0'] from rfl]
  simp [bigPrefix, bigSuffix, List.cons_append, List.append_assoc]

theorem render_reply_big :
    renderValue (replyMessage 0 bigVal) = bigPrefix ++ (bigStr ++ bigSuffix) := by
  rw [show bigVal = Value.str bigStr from rfl, render_reply_str, escapeStr_bigStr]

theorem msgBytes_reply_big :
    msgBytes (replyMessage 0 bigVal) =
      utf8Encode bigPrefix ++
        (List.replicate 4294967296 97 ++ utf8Encode bigSuffix) := by
  show utf8Encode (renderValue (replyMessage 0 bigVal)) = _
  rw [render_reply_big, utf8Encode_append, utf8Encode_append, utf8Encode_bigStr]

theorem msgLen_reply_big : msgLen (replyMessage 0 bigVal) = 4294967319 := by
  show (msgBytes (replyMessage 0 bigVal)).length = _
  rw [msgBytes_reply_big]
  simp only [List.length_append, List.length_replicate,
    show (utf8Encode bigPrefix).length = 10 from rfl,
    show (utf8Encode bigSuffix).length = 13 from rfl]

end BigValue

section OkShape

/-- Anatomy of every successful read: the reader consumes exactly the four
length bytes plus the number of payload bytes announced by the decoded
length field, the returned value is the full parse of exactly those payload
bytes, and the returned correlation id is the value's `rpc_id` field. -/
theorem stdin_ok_shape (input : List Nat) (i : Int) (v : Value) (rem : List Nat)
    (h : stdin input = (.ok i v, rem)) :
    rem = input.drop (4 + u32leDecode (input.take 4)) ∧
    fromSlice ((input.drop 4).take (u32leDecode (input.take 4))) = some v ∧
    asI64 v rpcKey = some i := by
  unfold stdin at h
  by_cases h4 : input.length < 4
  · rw [if_pos h4] at h
    exact ReadResult.noConfusion (congrArg Prod.fst h)
  · rw [if_neg h4] at h
    dsimp only at h
    by_cases h5 : (input.drop 4).length < u32leDecode (input.take 4)
    · rw [if_pos h5] at h
      exact ReadResult.noConfusion (congrArg Prod.fst h)
    · rw [if_neg h5] at h
      cases hfs : fromSlice ((input.drop 4).take (u32leDecode (input.take 4))) with
      | none =>
        rw [hfs] at h
        exact ReadResult.noConfusion (congrArg Prod.fst h)
      | some msg =>
        rw [hfs] at h
        dsimp only at h
        cases hid : asI64 msg rpcKey with
        | none =>
          rw [hid] at h
          exact ReadResult.noConfusion (congrArg Prod.fst h)
        | some rid =>
          rw [hid] at h
          dsimp only at h
          have h1 := congrArg Prod.fst h
          have h2 := congrArg Prod.snd h
          dsimp only at h1 h2
          injection h1 with hri hmv
          subst hri
          subst hmv
          refine ⟨?_, ?_, ?_⟩
          · rw [← h2, List.drop_drop, Nat.add_comm]
          · first
            | exact hfs
            | rfl
          · exact hid

end OkShape

section WriterRun

/-- Complete-write run of the writer from a clean stream state: the buffer
ends empty and exactly the frame bytes are appended to the flushed
output. -/
theorem stdoutRun_fullWrites (message : Value) (st : OutState)
    (hbuf : st.buffered = []) :
    stdoutRun message (fullWrites message) st =
      (.ok (), ⟨[], st.flushed ++ frameOf message⟩) := by
  unfold stdoutRun serialize fullWrites
  dsimp only
  rw [if_pos rfl]
  simp only [hbuf, List.nil_append]
  rw [show (u32le (utf8Encode (renderValue message)).length).take 4
        = u32le (utf8Encode (renderValue message)).length from rfl,
    show (utf8Encode (renderValue message)).take (msgLen message)
        = utf8Encode (renderValue message) from List.take_length _]
  rfl

end WriterRun

section Claims

/-- C1: for every correlation id in the signed 64-bit range and every JSON
value, provided the serialized reply message is shorter than 2^32 bytes
(the range where the length field is not truncated), encoding the reply
frame and decoding it with the reader's frame-unframing logic yields the
correlation id together with the JSON object holding exactly the fields
`rpc_id` (the id) and `reply` (the value), and consumes the whole frame. -/
theorem c1_reply_roundtrip (i : Int) (v : Value)
    (hi : -(2 ^ 63) ≤ i ∧ i < 2 ^ 63)
    (hlen : msgLen (replyMessage i v) < 4294967296) :
    stdin (replyFrame i v) = (.ok i (replyMessage i v), []) := by
  show stdin (frameOf (replyMessage i v)) = _
  rw [stdin_frame _ hlen, asI64_replyMessage i v hi]

/-- Witness for C1 at the concrete input id 1, value `true`. -/
theorem c1_reply_roundtrip_witness :
    (-(2 ^ 63) ≤ (1 : Int) ∧ (1 : Int) < 2 ^ 63) ∧
    msgLen (replyMessage 1 (.bool true)) < 4294967296 ∧
    stdin (replyFrame 1 (.bool true)) =
      (.ok 1 (replyMessage 1 (.bool true)), []) :=
  ⟨⟨by norm_num, by norm_num⟩, by decide,
    c1_reply_roundtrip 1 (.bool true) ⟨by norm_num, by norm_num⟩ (by decide)⟩

/-- Counterexample to C1 as originally stated (quantifying over every JSON
value): for the reply message containing a 2^32-character string the
4-byte length field is truncated, the reader takes only 23 payload bytes,
and the round trip fails. -/
theorem c1_reply_roundtrip_overflow :
    stdin (replyFrame 0 bigVal) ≠ (.ok 0 (replyMessage 0 bigVal), []) := by
  intro h
  obtain ⟨hrem, _, _⟩ := stdin_ok_shape _ _ _ _ h
  have hsz : u32leDecode ((replyFrame 0 bigVal).take 4) = 23 := by
    show u32leDecode ((frameOf (replyMessage 0 bigVal)).take 4) = 23
    rw [frameOf_take4, u32leDecode_u32le, msgLen_reply_big]
  have hlen := congrArg List.length hrem
  rw [hsz, List.length_drop, List.length_nil,
    show (replyFrame 0 bigVal).length = 4 + 4294967319 from by
      show (frameOf (replyMessage 0 bigVal)).length = _
      rw [frameOf_length, msgLen_reply_big]] at hlen
  omega

/-- C2: the source unwraps the `read_exact` result, so a stream that closes
after fewer than 4 bytes makes the process panic instead of returning an
`IoError`; evaluated here at the two-byte stream `[0, 0]`. -/
theorem c2_short_read_panics : stdin [0, 0] = (.crash, [0, 0]) := rfl

/-- C3 (amended: for frames whose payload is shorter than 2^32 bytes): the
frame is exactly the 4 little-endian (host-native) length bytes followed by
the payload with no padding or trailing data, the length field decodes to
exactly the payload's byte length, and the reader symmetrically decodes the
4-byte prefix with the same native-order read. -/
theorem c3_length_invariant (v : Value) (hlen : msgLen v < 4294967296) :
    frameOf v = u32le (msgLen v) ++ msgBytes v ∧
    u32leDecode ((frameOf v).take 4) = msgLen v ∧
    (frameOf v).drop 4 = msgBytes v := by
  refine ⟨rfl, ?_, frameOf_drop4 v⟩
  rw [frameOf_take4, u32leDecode_u32le, Nat.mod_eq_of_lt hlen]

/-- Witness for C3 at the concrete value `null`. -/
theorem c3_length_invariant_witness :
    msgLen Value.null < 4294967296 ∧
    (frameOf Value.null = u32le (msgLen Value.null) ++ msgBytes Value.null ∧
      u32leDecode ((frameOf Value.null).take 4) = msgLen Value.null ∧
      (frameOf Value.null).drop 4 = msgBytes Value.null) :=
  ⟨by decide, c3_length_invariant Value.null (by decide)⟩

/-- Counterexample to C3 as originally stated (for every frame): on the
oversized value whose payload is 2^32+2 bytes long the emitted length field
no longer equals the payload length. -/
theorem c3_length_invariant_counterexample :
    u32leDecode ((frameOf bigVal).take 4) ≠ msgLen bigVal := by
  rw [frameOf_take4, u32leDecode_u32le, msgLen_bigVal]
  decide

/-- C4: the source unwraps the `serde_json::from_slice` result, so a frame
whose payload is not valid JSON makes the process panic instead of
returning a `DecodeError`; evaluated here at the frame with length 2 and
payload bytes `xx`. -/
theorem c4_invalid_json_panics :
    stdin ([2, 0, 0, 0] ++ [120, 120]) = (.crash, []) := rfl

/-- C5: a frame whose payload parses as JSON but lacks an integer `rpc_id`
field makes the read fail with `ProtocolError` (and with no other error
kind), never succeed; the `as_i64!` macro is modelled from the spec. -/
theorem c5_missing_rpc_id (v : Value)
    (hlen : msgLen v < 4294967296) (hid : asI64 v rpcKey = none) :
    stdin (frameOf v) = (.fail .protocolError, []) := by
  rw [stdin_frame v hlen, hid]

/-- Witness for C5 at the concrete payload built from the object with the
single field `foo` holding 1. -/
theorem c5_missing_rpc_id_witness :
    msgLen (Value.obj [(fooKey, .num 1)]) < 4294967296 ∧
    asI64 (Value.obj [(fooKey, .num 1)]) rpcKey = none ∧
    stdin (frameOf (Value.obj [(fooKey, .num 1)])) =
      (.fail .protocolError, []) :=
  ⟨by decide, rfl, c5_missing_rpc_id (Value.obj [(fooKey, .num 1)]) (by decide) rfl⟩

/-- C6: the success writer builds the JSON object with exactly the fields
`reply` and `rpc_id` and the error writer builds the JSON object with
exactly the fields `error` (the deterministic debug rendering of the
failure) and `rpc_id`; neither object contains both a `reply` and an
`error` field, and both writers serialize exactly these objects. -/
theorem c6_response_shape (rpc_id : Int) (reply : Value) (error : Error) :
    stdout_reply rpc_id reply = stdout (replyMessage rpc_id reply) ∧
    stdout_error rpc_id error = stdout (errorMessage rpc_id error) ∧
    replyMessage rpc_id reply
        = .obj [(replyKey, reply), (rpcKey, .num rpc_id)] ∧
    errorMessage rpc_id error
        = .obj [(errorKey, .str (errorDebug error)), (rpcKey, .num rpc_id)] ∧
    lookupField [(replyKey, reply), (rpcKey, .num rpc_id)] rpcKey
        = some (.num rpc_id) ∧
    lookupField [(replyKey, reply), (rpcKey, .num rpc_id)] replyKey
        = some reply ∧
    lookupField [(replyKey, reply), (rpcKey, .num rpc_id)] errorKey = none ∧
    lookupField [(errorKey, .str (errorDebug error)), (rpcKey, .num rpc_id)]
        rpcKey = some (.num rpc_id) ∧
    lookupField [(errorKey, .str (errorDebug error)), (rpcKey, .num rpc_id)]
        errorKey = some (.str (errorDebug error)) ∧
    lookupField [(errorKey, .str (errorDebug error)), (rpcKey, .num rpc_id)]
        replyKey = none :=
  ⟨rfl, rfl, rfl, rfl, rfl, rfl, rfl, rfl, rfl, rfl⟩

/-- C7: the error writer is deterministic: two calls with equal correlation
ids and equal error values produce byte-identical frames, and two
complete-write runs of the effectful writer model from any two clean
output states append exactly those same frame bytes to the stream. -/
theorem c7_error_determinism (i1 i2 : Int) (e1 e2 : Error)
    (st1 st2 : OutState) (hi : i1 = i2) (he : e1 = e2)
    (h1 : st1.buffered = []) (h2 : st2.buffered = []) :
    errorFrame i1 e1 = errorFrame i2 e2 ∧
    (stdoutRun (errorMessage i1 e1) (fullWrites (errorMessage i1 e1))
        st1).2.flushed.drop st1.flushed.length =
      (stdoutRun (errorMessage i2 e2) (fullWrites (errorMessage i2 e2))
        st2).2.flushed.drop st2.flushed.length := by
  subst hi
  subst he
  refine ⟨rfl, ?_⟩
  rw [stdoutRun_fullWrites _ _ h1, stdoutRun_fullWrites _ _ h2]
  dsimp only
  rw [List.drop_left, List.drop_left]

/-- Witness for C7 at id 7 and a `DecodeError` value, from two different
clean output states. -/
theorem c7_error_determinism_witness :
    ((7 : Int) = 7) ∧ (Error.decodeError = Error.decodeError) ∧
    (OutState.mk [] []).buffered = [] ∧
    (OutState.mk [] [9, 9]).buffered = [] ∧
    (errorFrame 7 .decodeError = errorFrame 7 .decodeError ∧
      (stdoutRun (errorMessage 7 .decodeError)
          (fullWrites (errorMessage 7 .decodeError))
          (OutState.mk [] [])).2.flushed.drop (OutState.mk [] []).flushed.length =
        (stdoutRun (errorMessage 7 .decodeError)
          (fullWrites (errorMessage 7 .decodeError))
          (OutState.mk [] [9, 9])).2.flushed.drop
            (OutState.mk [] [9, 9]).flushed.length) :=
  ⟨rfl, rfl, rfl, rfl,
    c7_error_determinism 7 7 .decodeError .decodeError
      (OutState.mk [] []) (OutState.mk [] [9, 9]) rfl rfl rfl rfl⟩

/-- C8: the source writes the length and the body with `Write::write`
(lines 39 and 40) and discards the returned byte counts, so a short but
successful body write lets the call flush a truncated frame and still
report success; evaluated here for the message `null` when the stream
accepts all 4 length bytes but only 2 of the 4 payload bytes before a
successful flush, leaving 6 of the frame's 8 bytes flushed — not one
complete frame, with no error surfaced for the partial flush. -/
theorem c8_short_write_partial_frame :
    stdoutRun Value.null ⟨.ok 4, .ok 2, true⟩ (OutState.mk [] []) =
      (.ok (), OutState.mk [] ((frameOf Value.null).take 6)) ∧
    (frameOf Value.null).take 6 ≠ frameOf Value.null := by
  constructor
  · rfl
  · decide

/-- C9: whenever a read succeeds it returns the correlation id and the full
parsed request value, and it consumes exactly 4 + n bytes from the input
stream, where n is the length decoded from the 4-byte prefix. -/
theorem c9_success_consumes_exactly (input : List Nat) (i : Int) (v : Value)
    (rem : List Nat) (h : stdin input = (.ok i v, rem)) :
    rem = input.drop (4 + u32leDecode (input.take 4)) ∧
    fromSlice ((input.drop 4).take (u32leDecode (input.take 4))) = some v ∧
    asI64 v rpcKey = some i :=
  stdin_ok_shape input i v rem h

/-- Witness for C9 at the concrete frame for the object with the single
field `rpc_id` holding 1. -/
theorem c9_success_consumes_exactly_witness :
    stdin (frameOf (Value.obj [(rpcKey, .num 1)])) =
      (.ok 1 (Value.obj [(rpcKey, .num 1)]), []) ∧
    (([] : List Nat) = (frameOf (Value.obj [(rpcKey, .num 1)])).drop
        (4 + u32leDecode ((frameOf (Value.obj [(rpcKey, .num 1)])).take 4)) ∧
      fromSlice (((frameOf (Value.obj [(rpcKey, .num 1)])).drop 4).take
        (u32leDecode ((frameOf (Value.obj [(rpcKey, .num 1)])).take 4)))
        = some (Value.obj [(rpcKey, .num 1)]) ∧
      asI64 (Value.obj [(rpcKey, .num 1)]) rpcKey = some 1) :=
  ⟨rfl, c9_success_consumes_exactly (frameOf (Value.obj [(rpcKey, .num 1)]))
    1 (Value.obj [(rpcKey, .num 1)]) [] rfl⟩

/-- C10: the writer never fails on an oversized message: the emitted 4-byte
length field is the payload's byte length reduced modulo 2^32 (the
`as u32` cast truncates), so for payloads of 2^32 bytes or more the length
field no longer equals the payload's byte length. -/
theorem c10_length_truncation (v : Value) :
    stdout v = .ok (frameOf v) ∧
    u32leDecode ((frameOf v).take 4) = msgLen v % 4294967296 ∧
    (4294967296 ≤ msgLen v →
      u32leDecode ((frameOf v).take 4) ≠ msgLen v) := by
  refine ⟨rfl, ?_, ?_⟩
  · rw [frameOf_take4, u32leDecode_u32le]
  · intro hbig
    rw [frameOf_take4, u32leDecode_u32le]
    have hlt : msgLen v % 4294967296 < 4294967296 :=
      Nat.mod_lt _ (by norm_num)
    omega

/-- Witness for C10 at the oversized value whose payload is 2^32+2 bytes. -/
theorem c10_length_truncation_witness :
    4294967296 ≤ msgLen bigVal ∧
    u32leDecode ((frameOf bigVal).take 4) ≠ msgLen bigVal :=
  ⟨by rw [msgLen_bigVal]; norm_num,
    (c10_length_truncation bigVal).2.2 (by rw [msgLen_bigVal]; norm_num)⟩

end Claims

end NativeMessaging
